import Mathlib

/-!
Shallow embedding of the drag-and-drop reorder core of the `egui_dnd` fork
(`src/utils.rs`, `src/lib.rs`, `examples/simple.rs`), together with theorems
settling the specification claims about it.

Conventions of the embedding:
* Rust `usize` indices become `Nat` (no claim involves `usize::MAX` overflow).
* The in-place mutation of a slice becomes a function returning the new list;
  `Result<(), E>` on a `&mut [T]` becomes `Except E (List α)`.
* Screen coordinates (`f32`) enter the claims only through comparisons of the
  form `|top - y|`, `>` against a center, so they are embedded as exact
  rationals `ℚ`; only the vertical components are ever read by the code under
  scrutiny, so `Rect` keeps `min.y`/`max.y` and the drag delta keeps its `y`.
* Per-frame data that the host UI layer produces (pointer position, item
  rectangles, hover/release booleans, which item reports an active drag
  gesture) are inputs of the frame function `list_ui`.
-/

namespace EguiDnd

/-- Error type of `shift_slice` (src/utils.rs, `ShiftSliceError::InvalidIndices`). -/
inductive ShiftSliceError where
  | InvalidIndices (source_idx target_idx slice_len : Nat)
deriving DecidableEq

/-- Rust `sub_slice.rotate_left(1.min(sub_slice.len()))`: rotate a slice left by
one when nonempty, identity on the empty slice. -/
def rotateLeft1 {α : Type} : List α → List α
  | [] => []
  | x :: xs => xs ++ [x]

/-- Rust `sub_slice.rotate_right(1.min(sub_slice.len()))`: rotate a slice right
by one when nonempty, identity on the empty slice. -/
def rotateRight1 {α : Type} (l : List α) : List α :=
  match l.getLast? with
  | none => l
  | some x => x :: l.dropLast

/-- Embedding of `shift_slice` (src/utils.rs lines 23-40).
`to_shift.get_mut(source_idx..target_idx)` succeeds exactly when
`source_idx ≤ target_idx ∧ target_idx ≤ len`, and
`to_shift.get_mut(target_idx..=source_idx)` exactly when
`target_idx ≤ source_idx + 1 ∧ source_idx + 1 ≤ len`; the in-place rotation of
the chosen sub-slice is embedded by splicing the rotated segment back between
the untouched prefix and suffix. -/
def shift_slice {α : Type} (source_idx target_idx : Nat) (to_shift : List α) :
    Except ShiftSliceError (List α) :=
  if source_idx ≤ target_idx ∧ target_idx ≤ to_shift.length then
    Except.ok (to_shift.take source_idx ++
      rotateLeft1 ((to_shift.drop source_idx).take (target_idx - source_idx)) ++
      to_shift.drop target_idx)
  else if target_idx ≤ source_idx + 1 ∧ source_idx + 1 ≤ to_shift.length then
    Except.ok (to_shift.take target_idx ++
      rotateRight1 ((to_shift.drop target_idx).take (source_idx + 1 - target_idx)) ++
      to_shift.drop (source_idx + 1))
  else
    Except.error (ShiftSliceError.InvalidIndices source_idx target_idx to_shift.length)

/-- Drag index pair (src/lib.rs `DragIndices`). -/
structure DragIndices where
  source : Nat
  target : Nat
deriving DecidableEq

/-- Per-frame response of the list (src/lib.rs `DragDropResponse`). -/
inductive DragDropResponse where
  | NoDrag
  | CurrentDrag (indices : DragIndices)
  | Completed (indices : DragIndices)
deriving DecidableEq

/-- Persistent drag state (src/lib.rs `DragDropUi`); `drag_delta` keeps only the
vertical component of the stored `Vec2`, the only one the index logic reads. -/
structure DragDropUi where
  drag_indices : Option DragIndices
  drag_delta : Option ℚ
  draw_drop_preview : Bool
deriving DecidableEq

/-- Embedding of `DragDropUi::set_source_index` (src/lib.rs lines 349-361). -/
def set_source_index (s : DragDropUi) (source_idx : Nat) : DragDropUi :=
  match s.drag_indices with
  | some di => { s with drag_indices := some { source := source_idx, target := di.target } }
  | none => { s with drag_indices := some { source := source_idx, target := source_idx } }

/-- Vertical extent of an item rectangle; the hover logic only reads
`rect.top()` (= `min.y`) and `rect.center().y` (= `(min.y + max.y) / 2`). -/
structure Rect where
  minY : ℚ
  maxY : ℚ
deriving DecidableEq

/-- Rust `Rect::top`. -/
def Rect.top (r : Rect) : ℚ := r.minY

/-- Rust `Rect::center().y`. -/
def Rect.centerY (r : Rect) : ℚ := (r.minY + r.maxY) / 2

/-- Pointer-position adjustment at the start of `determine_hovering_index`
(src/lib.rs lines 300-305): add the stored drag delta when present. -/
def adjustedY (s : DragDropUi) (pointer_y : ℚ) : ℚ :=
  match s.drag_delta with
  | some delta => pointer_y + delta
  | none => pointer_y

/-- The `for_each` loop over `item_rects.into_iter().enumerate()` that keeps
the entry with the smallest `(entry_rect.top() - pointer_pos.y).abs()`,
replacing the running best only on strictly smaller distance
(src/lib.rs lines 309-323). `new_idx` is the running enumeration counter and
`closest` the running best `(dist, new_idx, entry_idx, rect)`. -/
def closestAux (pointer_y : ℚ) :
    List (Nat × Rect) → Nat → Option (ℚ × Nat × Nat × Rect) → Option (ℚ × Nat × Nat × Rect)
  | [], _, closest => closest
  | (entry_idx, entry_rect) :: rest, new_idx, closest =>
    let entry_dist := |entry_rect.top - pointer_y|
    let next :=
      match closest with
      | some c =>
        if c.1 > entry_dist then some (entry_dist, new_idx, entry_idx, entry_rect) else some c
      | none => some (entry_dist, new_idx, entry_idx, entry_rect)
    closestAux pointer_y rest (new_idx + 1) next

/-- The distance `(entry_rect.top() - pointer_pos.y).abs()` computed for each
entry by the loop of `determine_hovering_index` (src/lib.rs line 312). -/
def entry_dist (pointer_y : ℚ) (entry : Nat × Rect) : ℚ :=
  |entry.2.top - pointer_y|

/-- Embedding of `DragDropUi::determine_hovering_index` (src/lib.rs lines
292-347). The pointer position reported by `ui.input(|i| i.pointer.hover_pos())`
is the `hover_pos` argument. -/
def determine_hovering_index (s : DragDropUi) (hover_pos : Option ℚ) (list_len : Nat)
    (item_rects : List (Nat × Rect)) : Option Nat :=
  match hover_pos with
  | none => none
  | some p =>
    let pointer_y := adjustedY s p
    match closestAux pointer_y item_rects 0 none with
    | none => none
    | some (_dist, new_idx, _original_idx, rect) =>
      let hovering_idx := if pointer_y > rect.centerY then new_idx + 1 else new_idx
      let hovering_idx :=
        match s.drag_indices with
        | some di =>
          if di.source < hovering_idx ∧ hovering_idx < list_len then hovering_idx + 1
          else hovering_idx
        | none => hovering_idx
      some hovering_idx

/-- Stale-index repair step of `list_ui` (src/lib.rs lines 103-112): run
`shift_slice` on the display list and, if it fails, clamp both stored indices
with `.min(list_len)`. Only the success or failure of `shift_slice` matters to
the state, so the embedding probes it on `List.range list_len`, a list of the
same length as the display list. -/
def repair (s : DragDropUi) (list_len : Nat) : DragDropUi :=
  match s.drag_indices with
  | none => s
  | some di =>
    match shift_slice di.source di.target (List.range list_len) with
    | Except.ok _ => s
    | Except.error _ =>
      { s with drag_indices := some { source := min di.source list_len, target := min di.target list_len } }

/-- Drag-gesture detection inside the draw loop (src/lib.rs lines 125-129):
when the host reports the item enumerated at `idx` as being dragged,
`set_source_index idx` runs; `dragged_idx` is that report. -/
def drag_detect (s : DragDropUi) (dragged_idx : Option Nat) : DragDropUi :=
  match dragged_idx with
  | some idx => set_source_index s idx
  | none => s

/-- Target-update step of `list_ui` (src/lib.rs lines 133-144): with an active
session, store the hovered index when the list is hovered over and an index was
resolved, and collapse the target back to the source otherwise. -/
def update_target (s : DragDropUi) (list_hovered_over : Bool) (hovering_idx : Option Nat) :
    DragDropUi :=
  match s.drag_indices with
  | none => s
  | some di =>
    match hovering_idx with
    | some h =>
      if list_hovered_over then
        { s with drag_indices := some { source := di.source, target := h } }
      else
        { s with drag_indices := some { source := di.source, target := di.source } }
    | none => { s with drag_indices := some { source := di.source, target := di.source } }

/-- Per-frame data supplied by the host UI layer to `list_ui`: the number of
items, which enumerated item (if any) reports an active drag gesture, the
pointer position (if any), the display rectangles `(original_idx, rect)`, the
hover state of the list response, and whether a pointer release happened. -/
structure FrameInput where
  list_len : Nat
  dragged_idx : Option Nat
  hover_pos : Option ℚ
  item_rects : List (Nat × Rect)
  list_hovered_over : Bool
  any_released : Bool

/-- State updates of one `list_ui` frame in source order (repair, draw loop
with drag detection, hover resolution, target update); src/lib.rs lines
103-144. -/
def frame_update (s : DragDropUi) (input : FrameInput) : DragDropUi :=
  let s1 := repair s input.list_len
  let s2 := drag_detect s1 input.dragged_idx
  let hovering_idx :=
    determine_hovering_index s2 input.hover_pos input.list_len input.item_rects
  update_target s2 input.list_hovered_over hovering_idx

/-- Embedding of `DragDropUi::list_ui` (src/lib.rs lines 88-158): empty lists
return `NoDrag` immediately; otherwise the frame updates run and the response
phase (lines 146-157) finishes the frame. -/
def list_ui (s : DragDropUi) (input : FrameInput) : DragDropUi × DragDropResponse :=
  if input.list_len = 0 then (s, DragDropResponse.NoDrag)
  else
    let s3 := frame_update s input
    match s3.drag_indices with
    | some di =>
      if input.any_released then
        ({ s3 with drag_indices := none }, DragDropResponse.Completed di)
      else (s3, DragDropResponse.CurrentDrag di)
    | none => (s3, DragDropResponse.NoDrag)

/-- Modelled from the spec: the tolerant owned-sequence move `shift_vec`
(`moveElement`, spec §4.3) is exported by the crate and called from
`examples/simple.rs` line 59, but its definition is not among the provided
source files. Following the spec's words: if `source == target`, or
`source ≥ len`, or `target > len`, it is a silent no-op; otherwise, if
`source < target` the target is decremented by one, then the element at
`source` is removed and reinserted at the (possibly decremented) target. -/
def shift_vec {α : Type} (source target : Nat) (l : List α) : List α :=
  if source = target ∨ l.length ≤ source ∨ l.length < target then l
  else
    match l[source]? with
    | none => l
    | some x =>
      (l.eraseIdx source).insertIdx (if source < target then target - 1 else target) x

/-! ## Helper lemmas -/

theorem closestAux_isSome (pointer_y : ℚ) :
    ∀ (rest : List (Nat × Rect)) (n : Nat) (c : ℚ × Nat × Nat × Rect),
      ∃ v, closestAux pointer_y rest n (some c) = some v := by
  intro rest
  induction rest with
  | nil => exact fun n c => ⟨c, rfl⟩
  | cons head tail ih =>
    intro n c
    obtain ⟨e, r⟩ := head
    by_cases h : c.1 > |r.top - pointer_y|
    · simpa [closestAux, h] using ih (n + 1) (|r.top - pointer_y|, n, e, r)
    · simpa [closestAux, h] using ih (n + 1) c

theorem closestAux_spec (p : ℚ) :
    ∀ (rest : List (Nat × Rect)) (n : Nat) (d : ℚ) (j e : Nat) (r : Rect),
      (closestAux p rest n (some (d, j, e, r)) = some (d, j, e, r) ∧
        ∀ k (hk : k < rest.length), d ≤ entry_dist p (rest.get ⟨k, hk⟩)) ∨
      (∃ k, ∃ hk : k < rest.length,
        closestAux p rest n (some (d, j, e, r)) =
          some (entry_dist p (rest.get ⟨k, hk⟩), n + k,
            (rest.get ⟨k, hk⟩).1, (rest.get ⟨k, hk⟩).2) ∧
        entry_dist p (rest.get ⟨k, hk⟩) < d ∧
        (∀ m (hm : m < rest.length),
          entry_dist p (rest.get ⟨k, hk⟩) ≤ entry_dist p (rest.get ⟨m, hm⟩)) ∧
        (∀ m (hm : m < rest.length), m < k →
          entry_dist p (rest.get ⟨k, hk⟩) < entry_dist p (rest.get ⟨m, hm⟩))) := by
  intro rest
  induction rest with
  | nil =>
    intro n d j e r
    exact Or.inl ⟨rfl, fun k hk => by simp at hk⟩
  | cons head tail ih =>
    intro n d j e r
    obtain ⟨e1, r1⟩ := head
    have hstep : closestAux p ((e1, r1) :: tail) n (some (d, j, e, r)) =
        closestAux p tail (n + 1)
          (if d > |r1.top - p| then some (|r1.top - p|, n, e1, r1)
           else some (d, j, e, r)) := rfl
    by_cases hlt : |r1.top - p| < d
    · rw [hstep, if_pos hlt]
      rcases ih (n + 1) (|r1.top - p|) n e1 r1 with ⟨heq, hall⟩ | ⟨k, hk, heq, hlt2, hmin, hfirst⟩
      · refine Or.inr ⟨0, Nat.succ_pos _, heq, hlt, ?_, ?_⟩
        · intro m hm
          cases m with
          | zero => exact le_refl _
          | succ m0 => exact hall m0 (Nat.lt_of_succ_lt_succ hm)
        · intro m hm hm0
          exact absurd hm0 (Nat.not_lt_zero m)
      · have hidx : n + 1 + k = n + (k + 1) := by omega
        rw [hidx] at heq
        refine Or.inr ⟨k + 1, Nat.succ_lt_succ hk, heq, lt_trans hlt2 hlt, ?_, ?_⟩
        · intro m hm
          cases m with
          | zero => exact le_of_lt hlt2
          | succ m0 => exact hmin m0 (Nat.lt_of_succ_lt_succ hm)
        · intro m hm hmk
          cases m with
          | zero => exact hlt2
          | succ m0 => exact hfirst m0 (Nat.lt_of_succ_lt_succ hm) (Nat.lt_of_succ_lt_succ hmk)
    · rw [hstep, if_neg hlt]
      rcases ih (n + 1) d j e r with ⟨heq, hall⟩ | ⟨k, hk, heq, hlt2, hmin, hfirst⟩
      · refine Or.inl ⟨heq, ?_⟩
        intro m hm
        cases m with
        | zero => exact le_of_not_lt hlt
        | succ m0 => exact hall m0 (Nat.lt_of_succ_lt_succ hm)
      · have hidx : n + 1 + k = n + (k + 1) := by omega
        rw [hidx] at heq
        refine Or.inr ⟨k + 1, Nat.succ_lt_succ hk, heq, hlt2, ?_, ?_⟩
        · intro m hm
          cases m with
          | zero => exact le_of_lt (lt_of_lt_of_le hlt2 (le_of_not_lt hlt))
          | succ m0 => exact hmin m0 (Nat.lt_of_succ_lt_succ hm)
        · intro m hm hmk
          cases m with
          | zero => exact lt_of_lt_of_le hlt2 (le_of_not_lt hlt)
          | succ m0 => exact hfirst m0 (Nat.lt_of_succ_lt_succ hm) (Nat.lt_of_succ_lt_succ hmk)

theorem shift_slice_ok_bounds {α : Type} {a b : Nat} {l l2 : List α}
    (h : shift_slice a b l = Except.ok l2) : a ≤ l.length ∧ b ≤ l.length := by
  unfold shift_slice at h
  split at h
  · next hc => exact ⟨le_trans hc.1 hc.2, hc.2⟩
  · split at h
    · next hc => omega
    · exact absurd h (by simp)

theorem rotateRight1_append_singleton {α : Type} (M : List α) (x : α) :
    rotateRight1 (M ++ [x]) = x :: M := by
  unfold rotateRight1
  rw [List.getLast?_concat, List.dropLast_concat]

theorem getElem?_splice {α : Type} (A B C : List α) (i : Nat) :
    (A ++ B ++ C)[i]? =
      if i < A.length then A[i]?
      else if i < A.length + B.length then B[i - A.length]?
      else C[i - A.length - B.length]? := by
  by_cases h1 : i < A.length
  · rw [if_pos h1]
    rw [List.getElem?_append_left (by simp; omega), List.getElem?_append_left h1]
  · rw [if_neg h1]
    by_cases h2 : i < A.length + B.length
    · rw [if_pos h2]
      rw [List.getElem?_append_left (by simp; omega)]
      rw [List.getElem?_append_right (by omega)]
    · rw [if_neg h2]
      rw [List.getElem?_append_right (by simp; omega)]
      congr 1
      simp [Nat.sub_sub]

theorem shift_slice_self {α : Type} (source : Nat) (l : List α) (h : source ≤ l.length) :
    shift_slice source source l = Except.ok l := by
  unfold shift_slice
  rw [if_pos ⟨le_refl source, h⟩]
  simp [rotateLeft1, Nat.sub_self]

theorem shift_slice_lt_eq {α : Type} {source target : Nat} {l : List α}
    (h1 : source < target) (h2 : target ≤ l.length) (hs : source < l.length) :
    shift_slice source target l = Except.ok
      (l.take source ++ ((l.drop (source + 1)).take (target - source - 1) ++ [l[source]]) ++
        l.drop target) := by
  unfold shift_slice
  rw [if_pos ⟨le_of_lt h1, h2⟩]
  have hdrop : l.drop source = l[source] :: l.drop (source + 1) := List.drop_eq_getElem_cons hs
  have hmid : (l.drop source).take (target - source) =
      l[source] :: (l.drop (source + 1)).take (target - source - 1) := by
    obtain ⟨k, hk⟩ : ∃ k, target - source = k + 1 := ⟨target - source - 1, by omega⟩
    have hk2 : target - source - 1 = k := by omega
    rw [hdrop, hk2, hk, List.take_succ_cons]
  rw [hmid]
  rfl

theorem shift_slice_gt_eq {α : Type} {source target : Nat} {l : List α}
    (h1 : target < source) (hs : source < l.length) :
    shift_slice source target l = Except.ok
      (l.take target ++ (l[source] :: (l.drop target).take (source - target)) ++
        l.drop (source + 1)) := by
  unfold shift_slice
  rw [if_neg (by omega)]
  rw [if_pos ⟨by omega, by omega⟩]
  have hmid : (l.drop target).take (source + 1 - target) =
      (l.drop target).take (source - target) ++ [l[source]] := by
    have he : source + 1 - target = (source - target) + 1 := by omega
    rw [he, List.take_succ]
    congr 1
    rw [List.getElem?_drop]
    rw [List.getElem?_eq_getElem (by omega)]
    simp only [Option.toList_some]
    congr 2
    omega
  rw [hmid, rotateRight1_append_singleton]

theorem insertIdx_eq_take_cons_drop {α : Type} (x : α) :
    ∀ (n : Nat) (l : List α), n ≤ l.length →
      l.insertIdx n x = l.take n ++ x :: l.drop n := by
  intro n
  induction n with
  | zero => intro l h; simp
  | succ n ih =>
    intro l h
    cases l with
    | nil => simp at h
    | cons y ys =>
      simp only [List.insertIdx_succ_cons, List.take_succ_cons, List.drop_succ_cons,
        List.cons_append]
      rw [ih ys (by simp at h; omega)]

theorem shift_vec_lt_eq {α : Type} {source target : Nat} {l : List α}
    (h1 : source < target) (h2 : target ≤ l.length) :
    shift_vec source target l =
      l.take source ++ ((l.drop (source + 1)).take (target - source - 1) ++ [l[source]]) ++
        l.drop target := by
  have hs : source < l.length := lt_of_lt_of_le h1 h2
  unfold shift_vec
  rw [if_neg (by omega)]
  rw [List.getElem?_eq_getElem hs]
  dsimp only
  rw [if_pos h1]
  rw [List.eraseIdx_eq_take_drop_succ]
  rw [insertIdx_eq_take_cons_drop _ (target - 1) _
    (by simp only [List.length_append, List.length_take, List.length_drop]; omega)]
  have hlt : (l.take source).length = source := by simp [List.length_take]; omega
  have ht : (l.take source ++ l.drop (source + 1)).take (target - 1) =
      l.take source ++ (l.drop (source + 1)).take (target - source - 1) := by
    rw [List.take_append_eq_append_take, hlt]
    congr 1
    · rw [List.take_take, Nat.min_eq_right (by omega)]
    · congr 1
      omega
  have hd : (l.take source ++ l.drop (source + 1)).drop (target - 1) = l.drop target := by
    rw [List.drop_append_eq_append_drop, hlt]
    rw [List.drop_eq_nil_of_le (by rw [hlt]; omega), List.nil_append]
    rw [List.drop_drop]
    congr 1
    omega
  rw [ht, hd]
  simp [List.append_assoc]

theorem shift_vec_gt_eq {α : Type} {source target : Nat} {l : List α}
    (h1 : target < source) (hs : source < l.length) :
    shift_vec source target l =
      l.take target ++ (l[source] :: (l.drop target).take (source - target)) ++
        l.drop (source + 1) := by
  unfold shift_vec
  rw [if_neg (by omega)]
  rw [List.getElem?_eq_getElem hs]
  dsimp only
  rw [if_neg (by omega)]
  rw [List.eraseIdx_eq_take_drop_succ]
  rw [insertIdx_eq_take_cons_drop _ target _
    (by simp only [List.length_append, List.length_take, List.length_drop]; omega)]
  have hlt : (l.take source).length = source := by simp [List.length_take]; omega
  have ht : (l.take source ++ l.drop (source + 1)).take target = l.take target := by
    rw [List.take_append_eq_append_take, hlt]
    have h0 : target - source = 0 := by omega
    rw [h0, List.take_zero, List.append_nil, List.take_take, Nat.min_eq_left (by omega)]
  have hd : (l.take source ++ l.drop (source + 1)).drop target =
      (l.drop target).take (source - target) ++ l.drop (source + 1) := by
    rw [List.drop_append_eq_append_drop, hlt]
    have h0 : target - source = 0 := by omega
    rw [h0, List.drop_zero]
    congr 1
    have hdt := (List.take_drop target (source - target) l).symm
    rw [show target + (source - target) = source from by omega] at hdt
    exact hdt
  rw [ht, hd]
  simp [List.append_assoc]

/-! ## Claims -/

/-- C1: for `source < target ≤ len` the strict rotation succeeds, puts the
element originally at `source` at index `target - 1`, shifts every element
originally in `(source, target)` left by one, and leaves indices outside
`[source, target)` unchanged; for `target < source < len` it succeeds, puts
the element originally at `source` at index `target`, shifts every element in
`[target, source)` right by one, and leaves indices outside `[target, source]`
unchanged; for `source = target ≤ len` it returns the sequence unchanged. -/
theorem C1_shift_slice_rotation {α : Type} (source target : Nat) (l : List α) :
    (source < target → target ≤ l.length →
      ∃ l2, shift_slice source target l = Except.ok l2 ∧
        l2[target - 1]? = l[source]? ∧
        (∀ i, source < i → i < target → l2[i - 1]? = l[i]?) ∧
        (∀ i, i < source ∨ target ≤ i → l2[i]? = l[i]?)) ∧
    (target < source → source < l.length →
      ∃ l2, shift_slice source target l = Except.ok l2 ∧
        l2[target]? = l[source]? ∧
        (∀ i, target ≤ i → i < source → l2[i + 1]? = l[i]?) ∧
        (∀ i, i < target ∨ source < i → l2[i]? = l[i]?)) ∧
    (source = target → source ≤ l.length → shift_slice source target l = Except.ok l) := by
  refine ⟨?_, ?_, ?_⟩
  · intro h1 h2
    have hs : source < l.length := lt_of_lt_of_le h1 h2
    have hA : (l.take source).length = source := by simp; omega
    have hB : ((l.drop (source + 1)).take (target - source - 1) ++ [l[source]]).length =
        target - source := by simp; omega
    refine ⟨_, shift_slice_lt_eq h1 h2 hs, ?_, ?_, ?_⟩
    · rw [getElem?_splice, hA, hB]
      rw [if_neg (by omega), if_pos (by omega)]
      rw [List.getElem?_append_right (by simp; omega)]
      have h0 : target - 1 - source -
          ((l.drop (source + 1)).take (target - source - 1)).length = 0 := by simp; omega
      rw [h0, List.getElem?_eq_getElem hs]
      rfl
    · intro i hi1 hi2
      rw [getElem?_splice, hA, hB]
      rw [if_neg (by omega), if_pos (by omega)]
      rw [List.getElem?_append_left (by simp; omega)]
      rw [List.getElem?_take_of_lt (by omega), List.getElem?_drop]
      congr 1
      omega
    · intro i hi
      rcases hi with hi | hi
      · rw [getElem?_splice, hA, hB]
        rw [if_pos (by omega)]
        exact List.getElem?_take_of_lt hi
      · rw [getElem?_splice, hA, hB]
        rw [if_neg (by omega), if_neg (by omega)]
        rw [List.getElem?_drop]
        congr 1
        omega
  · intro h1 hs
    have ht : target ≤ l.length := by omega
    have hA : (l.take target).length = target := by simp; omega
    have hB : (l[source] :: (l.drop target).take (source - target)).length =
        source - target + 1 := by simp; omega
    refine ⟨_, shift_slice_gt_eq h1 hs, ?_, ?_, ?_⟩
    · rw [getElem?_splice, hA, hB]
      rw [if_neg (by omega), if_pos (by omega)]
      rw [Nat.sub_self, List.getElem?_cons_zero, List.getElem?_eq_getElem hs]
    · intro i hi1 hi2
      rw [getElem?_splice, hA, hB]
      rw [if_neg (by omega), if_pos (by omega)]
      have hidx : i + 1 - target = (i - target) + 1 := by omega
      rw [hidx, List.getElem?_cons_succ]
      rw [List.getElem?_take_of_lt (by omega), List.getElem?_drop]
      congr 1
      omega
    · intro i hi
      rcases hi with hi | hi
      · rw [getElem?_splice, hA, hB]
        rw [if_pos (by omega)]
        exact List.getElem?_take_of_lt hi
      · rw [getElem?_splice, hA, hB]
        rw [if_neg (by omega), if_neg (by omega)]
        rw [List.getElem?_drop]
        congr 1
        omega
  · intro heq hle
    subst heq
    exact shift_slice_self source l hle

theorem C1_witness :
    (∃ l2, shift_slice 1 3 [10, 11, 12, 13] = Except.ok l2 ∧
      l2[2]? = [10, 11, 12, 13][1]? ∧
      (∀ i, 1 < i → i < 3 → l2[i - 1]? = [10, 11, 12, 13][i]?) ∧
      (∀ i, i < 1 ∨ 3 ≤ i → l2[i]? = [10, 11, 12, 13][i]?)) ∧
    (∃ l2, shift_slice 3 1 [10, 11, 12, 13] = Except.ok l2 ∧
      l2[1]? = [10, 11, 12, 13][3]? ∧
      (∀ i, 1 ≤ i → i < 3 → l2[i + 1]? = [10, 11, 12, 13][i]?) ∧
      (∀ i, i < 1 ∨ 3 < i → l2[i]? = [10, 11, 12, 13][i]?)) ∧
    shift_slice 2 2 [5, 6, 7] = Except.ok [5, 6, 7] :=
  ⟨(C1_shift_slice_rotation 1 3 [10, 11, 12, 13]).1 (by decide) (by decide),
   (C1_shift_slice_rotation 3 1 [10, 11, 12, 13]).2.1 (by decide) (by decide),
   (C1_shift_slice_rotation 2 2 [5, 6, 7]).2.2 rfl (by decide)⟩

/-- C9: the spec-modelled owned-sequence move `shift_vec` is a silent no-op
when `source = target`, `source ≥ len` or `target > len`; for every
semantically valid pair (`source < len`, `target ≤ len`) the strict rotation
`shift_slice` succeeds and produces exactly the ordering `shift_vec` produces
(the remove/reinsert with the decremented target when `source < target` is the
definition of `shift_vec` itself). -/
theorem C9_shift_vec_refines {α : Type} (source target : Nat) (l : List α) :
    ((source = target ∨ l.length ≤ source ∨ l.length < target) →
      shift_vec source target l = l) ∧
    (source < l.length → target ≤ l.length →
      shift_slice source target l = Except.ok (shift_vec source target l)) := by
  constructor
  · intro h
    unfold shift_vec
    rw [if_pos h]
  · intro hs ht
    rcases Nat.lt_trichotomy source target with h1 | h1 | h1
    · rw [shift_slice_lt_eq h1 ht hs, shift_vec_lt_eq h1 ht]
    · subst h1
      rw [shift_slice_self source l (le_of_lt hs)]
      unfold shift_vec
      rw [if_pos (Or.inl rfl)]
    · rw [shift_slice_gt_eq h1 hs, shift_vec_gt_eq h1 hs]

theorem C9_witness :
    shift_vec 2 2 [10, 11, 12] = [10, 11, 12] ∧
    shift_slice 0 2 [1, 2, 3, 4] = Except.ok (shift_vec 0 2 [1, 2, 3, 4]) ∧
    shift_slice 3 1 [1, 2, 3, 4, 5] = Except.ok (shift_vec 3 1 [1, 2, 3, 4, 5]) :=
  ⟨(C9_shift_vec_refines 2 2 [10, 11, 12]).1 (Or.inl rfl),
   (C9_shift_vec_refines 0 2 [1, 2, 3, 4]).2 (by decide) (by decide),
   (C9_shift_vec_refines 3 1 [1, 2, 3, 4, 5]).2 (by decide) (by decide)⟩

/-- C2 (code_bug evidence): the claim — matching the doc comment of
`shift_slice` in src/utils.rs line 22 — says the strict rotation fails for
every input with `¬(source < len ∧ target ≤ len)`, and that `(5, 2)` on a
3-element sequence fails reporting `(5, 2, 3)`. The code returns `Ok` at
`source = target = len` (the empty sub-range `len..len` is constructible),
contradicting its own doc comment; the `(5, 2, 3)` error case does hold. -/
theorem C2_shift_slice_boundary :
    shift_slice 3 3 [0, 1, 2] = Except.ok [0, 1, 2] ∧
    shift_slice 5 2 [0, 1, 2] = Except.error (ShiftSliceError.InvalidIndices 5 2 3) :=
  ⟨rfl, rfl⟩

/-- C3 (counterexample): calling `set_source_index` while a session is active
is not a no-op — with stored indices `(0, 2)`, `set_source_index 1` overwrites
the stored source with `1`. -/
theorem C3_counterexample :
    set_source_index ⟨some ⟨0, 2⟩, none, true⟩ 1 = ⟨some ⟨1, 2⟩, none, true⟩ ∧
    (⟨some ⟨1, 2⟩, none, true⟩ : DragDropUi) ≠ ⟨some ⟨0, 2⟩, none, true⟩ := by
  exact ⟨rfl, by simp⟩

/-- C3 (amended): while a session is active, `set_source_index idx` overwrites
the session's source with `idx` (leaving the target and the rest of the state
unchanged), so it is a no-op exactly when `idx` already equals the stored
source; with no active session it creates one with `source = target = idx`. -/
theorem C3_set_source_overwrites (s : DragDropUi) (idx : Nat) :
    (∀ di, s.drag_indices = some di →
      set_source_index s idx = { s with drag_indices := some ⟨idx, di.target⟩ } ∧
      (di.source = idx → set_source_index s idx = s)) ∧
    (s.drag_indices = none →
      set_source_index s idx = { s with drag_indices := some ⟨idx, idx⟩ }) := by
  constructor
  · intro di hdi
    constructor
    · simp [set_source_index, hdi]
    · intro hsrc
      cases s with
      | mk d delta preview =>
        simp only at hdi
        subst hdi
        simp [set_source_index, ← hsrc]
  · intro hdi
    simp [set_source_index, hdi]

theorem C3_witness :
    set_source_index ⟨some ⟨0, 2⟩, none, true⟩ 0 = ⟨some ⟨0, 2⟩, none, true⟩ ∧
    set_source_index ⟨none, none, true⟩ 4 = ⟨some ⟨4, 4⟩, none, true⟩ :=
  ⟨((C3_set_source_overwrites ⟨some ⟨0, 2⟩, none, true⟩ 0).1 ⟨0, 2⟩ rfl).2 rfl,
   (C3_set_source_overwrites ⟨none, none, true⟩ 4).2 rfl⟩

/-- C4 (counterexample): the repaired indices satisfy only `source ≤ len`, not
`source < len`. Reachable run: from the idle state, a frame over 6 items whose
item 5 starts a drag (pointer off-surface, so the target collapses to the
source) leaves the session at `(5, 5)`; on the next frame the list has shrunk
to 3 items and the repair step clamps to `(3, 3)`, where `source = 3` is not
less than `len = 3`. -/
theorem C4_counterexample :
    (list_ui ⟨none, none, true⟩
        { list_len := 6, dragged_idx := some 5, hover_pos := none,
          item_rects := [(0, ⟨0, 2⟩), (1, ⟨2, 4⟩), (2, ⟨4, 6⟩),
            (3, ⟨6, 8⟩), (4, ⟨8, 10⟩), (5, ⟨10, 12⟩)],
          list_hovered_over := false, any_released := false }).1.drag_indices = some ⟨5, 5⟩ ∧
    (repair ⟨some ⟨5, 5⟩, none, true⟩ 3).drag_indices = some ⟨3, 3⟩ ∧
    ¬((3 : Nat) < 3) :=
  ⟨rfl, rfl, by decide⟩

/-- C4 (amended): after the per-frame repair/clamp step has run, the stored
indices satisfy `source ≤ len` and `target ≤ len` (the clamp is
`min value len`, so `source = len` is possible when the list shrank). -/
theorem C4_repair_bounds (s : DragDropUi) (list_len : Nat) (di : DragIndices)
    (h : (repair s list_len).drag_indices = some di) :
    di.source ≤ list_len ∧ di.target ≤ list_len := by
  unfold repair at h
  cases hdi : s.drag_indices with
  | none => rw [hdi] at h; simp at h; rw [h] at hdi; simp at hdi
  | some di0 =>
    rw [hdi] at h
    dsimp only at h
    cases hs : shift_slice di0.source di0.target (List.range list_len) with
    | ok w =>
      rw [hs, hdi] at h
      simp only [Option.some.injEq] at h
      subst h
      have hb := shift_slice_ok_bounds hs
      rw [List.length_range] at hb
      omega
    | error e =>
      rw [hs] at h
      simp only [Option.some.injEq] at h
      subst h
      exact ⟨min_le_right _ _, min_le_right _ _⟩

theorem C4_witness :
    ((⟨3, 3⟩ : DragIndices).source ≤ 3 ∧ (⟨3, 3⟩ : DragIndices).target ≤ 3) :=
  C4_repair_bounds ⟨some ⟨5, 5⟩, none, true⟩ 3 ⟨3, 3⟩ rfl

/-- C5 (counterexample): a pointer position is supplied (`some 0`) yet the
hover resolver returns `None`, because the rectangle list is empty. -/
theorem C5_counterexample :
    determine_hovering_index ⟨none, none, true⟩ (some 0) 0 [] = none :=
  rfl

/-- C5 (amended): `determine_hovering_index` returns `None` exactly when no
pointer position is supplied this frame or the rectangle list is empty;
whenever a pointer position is supplied and at least one rectangle exists it
returns `Some index`. -/
theorem C5_hover_none_iff (s : DragDropUi) (hover_pos : Option ℚ) (list_len : Nat)
    (item_rects : List (Nat × Rect)) :
    determine_hovering_index s hover_pos list_len item_rects = none ↔
      (hover_pos = none ∨ item_rects = []) := by
  cases hover_pos with
  | none => simp [determine_hovering_index]
  | some p =>
    cases item_rects with
    | nil => simp [determine_hovering_index, closestAux]
    | cons head tail =>
      obtain ⟨e, r⟩ := head
      obtain ⟨v, hv⟩ :=
        closestAux_isSome (adjustedY s p) tail 1 (|r.top - adjustedY s p|, 0, e, r)
      obtain ⟨d1, n1, e1, r1⟩ := v
      simp [determine_hovering_index, closestAux, hv]

/-- C6: with a pointer position supplied and a nonempty rectangle list, the
hover resolver picks the rectangle minimizing `|adjusted_y - top|` (ties going
to the first rectangle in display iteration order), forms the candidate as the
winner's display position plus one exactly when the adjusted pointer y is
strictly below the winner's vertical center, and — when a session is active
with `source < candidate < list_len` — increments the candidate by one. -/
theorem C6_hover_selection (s : DragDropUi) (p : ℚ) (list_len : Nat)
    (item_rects : List (Nat × Rect)) (hne : item_rects ≠ []) :
    ∃ j, ∃ hj : j < item_rects.length, ∃ cand,
      cand = (if adjustedY s p > (item_rects.get ⟨j, hj⟩).2.centerY then j + 1 else j) ∧
      (∀ k (hk : k < item_rects.length),
        entry_dist (adjustedY s p) (item_rects.get ⟨j, hj⟩) ≤
          entry_dist (adjustedY s p) (item_rects.get ⟨k, hk⟩)) ∧
      (∀ k (hk : k < item_rects.length), k < j →
        entry_dist (adjustedY s p) (item_rects.get ⟨j, hj⟩) <
          entry_dist (adjustedY s p) (item_rects.get ⟨k, hk⟩)) ∧
      determine_hovering_index s (some p) list_len item_rects =
        some (match s.drag_indices with
          | some di => if di.source < cand ∧ cand < list_len then cand + 1 else cand
          | none => cand) := by
  obtain ⟨⟨e0, r0⟩, tail, rfl⟩ : ∃ h t, item_rects = h :: t := by
    cases item_rects with
    | nil => exact absurd rfl hne
    | cons h t => exact ⟨h, t, rfl⟩
  have hstep0 : closestAux (adjustedY s p) ((e0, r0) :: tail) 0 none =
      closestAux (adjustedY s p) tail 1 (some (|r0.top - adjustedY s p|, 0, e0, r0)) := rfl
  rcases closestAux_spec (adjustedY s p) tail 1 (|r0.top - adjustedY s p|) 0 e0 r0 with
    ⟨heq, hall⟩ | ⟨k, hk, heq, hlt2, hmin, hfirst⟩
  · refine ⟨0, Nat.succ_pos _, _, rfl, ?_, ?_, ?_⟩
    · intro m hm
      cases m with
      | zero => exact le_refl _
      | succ m0 => exact hall m0 (Nat.lt_of_succ_lt_succ hm)
    · intro m hm hm0
      exact absurd hm0 (Nat.not_lt_zero m)
    · unfold determine_hovering_index
      dsimp only
      rw [hstep0, heq]
      rfl
  · have hidx : 1 + k = k + 1 := by omega
    rw [hidx] at heq
    refine ⟨k + 1, Nat.succ_lt_succ hk, _, rfl, ?_, ?_, ?_⟩
    · intro m hm
      cases m with
      | zero => exact le_of_lt hlt2
      | succ m0 => exact hmin m0 (Nat.lt_of_succ_lt_succ hm)
    · intro m hm hmk
      cases m with
      | zero => exact hlt2
      | succ m0 => exact hfirst m0 (Nat.lt_of_succ_lt_succ hm) (Nat.lt_of_succ_lt_succ hmk)
    · unfold determine_hovering_index
      dsimp only
      rw [hstep0, heq]
      rfl

theorem C6_witness :
    ∃ j, ∃ hj : j < ([(0, ⟨0, 2⟩), (1, ⟨2, 4⟩)] : List (Nat × Rect)).length, ∃ cand,
      cand = (if adjustedY ⟨some ⟨0, 0⟩, none, true⟩ 3 >
          (([(0, ⟨0, 2⟩), (1, ⟨2, 4⟩)] : List (Nat × Rect)).get ⟨j, hj⟩).2.centerY
        then j + 1 else j) ∧
      (∀ k (hk : k < ([(0, ⟨0, 2⟩), (1, ⟨2, 4⟩)] : List (Nat × Rect)).length),
        entry_dist (adjustedY ⟨some ⟨0, 0⟩, none, true⟩ 3)
            (([(0, ⟨0, 2⟩), (1, ⟨2, 4⟩)] : List (Nat × Rect)).get ⟨j, hj⟩) ≤
          entry_dist (adjustedY ⟨some ⟨0, 0⟩, none, true⟩ 3)
            (([(0, ⟨0, 2⟩), (1, ⟨2, 4⟩)] : List (Nat × Rect)).get ⟨k, hk⟩)) ∧
      (∀ k (hk : k < ([(0, ⟨0, 2⟩), (1, ⟨2, 4⟩)] : List (Nat × Rect)).length), k < j →
        entry_dist (adjustedY ⟨some ⟨0, 0⟩, none, true⟩ 3)
            (([(0, ⟨0, 2⟩), (1, ⟨2, 4⟩)] : List (Nat × Rect)).get ⟨j, hj⟩) <
          entry_dist (adjustedY ⟨some ⟨0, 0⟩, none, true⟩ 3)
            (([(0, ⟨0, 2⟩), (1, ⟨2, 4⟩)] : List (Nat × Rect)).get ⟨k, hk⟩)) ∧
      determine_hovering_index ⟨some ⟨0, 0⟩, none, true⟩ (some 3) 2
          [(0, ⟨0, 2⟩), (1, ⟨2, 4⟩)] =
        some (match (⟨some ⟨0, 0⟩, none, true⟩ : DragDropUi).drag_indices with
          | some di => if di.source < cand ∧ cand < 2 then cand + 1 else cand
          | none => cand) :=
  C6_hover_selection ⟨some ⟨0, 0⟩, none, true⟩ 3 2 [(0, ⟨0, 2⟩), (1, ⟨2, 4⟩)] (by simp)

/-- C7 (counterexample): with an active session at `(0, 0)` and the hover
resolver yielding candidate `some 2`, the target update stores `0` (the
source), not the candidate `2`, because the list is not hovered over. -/
theorem C7_counterexample :
    (update_target ⟨some ⟨0, 0⟩, none, true⟩ false (some 2)).drag_indices = some ⟨0, 0⟩ ∧
    (0 : Nat) ≠ 2 :=
  ⟨rfl, by decide⟩

/-- C7 (amended): with an active drag session, the target update sets
`target = candidate` when the candidate is `Some` and the list response is
hovered over; when the candidate is `None` or the list is not hovered over it
resets `target = source`. -/
theorem C7_update_target (s : DragDropUi) (di : DragIndices) (hovered : Bool)
    (cand : Option Nat) (h : s.drag_indices = some di) :
    (∀ c, cand = some c → hovered = true →
      (update_target s hovered cand).drag_indices = some ⟨di.source, c⟩) ∧
    ((cand = none ∨ hovered = false) →
      (update_target s hovered cand).drag_indices = some ⟨di.source, di.source⟩) := by
  constructor
  · intro c hc hh
    subst hc hh
    simp [update_target, h]
  · rintro (hc | hh)
    · subst hc
      simp [update_target, h]
    · subst hh
      cases cand <;> simp [update_target, h]

theorem C7_witness :
    (update_target ⟨some ⟨1, 1⟩, none, true⟩ true (some 3)).drag_indices = some ⟨1, 3⟩ ∧
    (update_target ⟨some ⟨1, 2⟩, none, true⟩ true none).drag_indices = some ⟨1, 1⟩ :=
  ⟨(C7_update_target ⟨some ⟨1, 1⟩, none, true⟩ ⟨1, 1⟩ true (some 3) rfl).1 3 rfl rfl,
   (C7_update_target ⟨some ⟨1, 2⟩, none, true⟩ ⟨1, 2⟩ true none rfl).2 (Or.inl rfl)⟩

theorem set_source_index_isSome (s : DragDropUi) (idx : Nat) :
    (set_source_index s idx).drag_indices.isSome := by
  unfold set_source_index
  cases s.drag_indices <;> simp

theorem repair_isSome (s : DragDropUi) (list_len : Nat) (h : s.drag_indices.isSome) :
    (repair s list_len).drag_indices.isSome := by
  unfold repair
  cases hdi : s.drag_indices with
  | none => rw [hdi] at h; simp at h
  | some di =>
    dsimp only
    cases shift_slice di.source di.target (List.range list_len) with
    | ok w => exact h
    | error e => simp

theorem update_target_isSome (s : DragDropUi) (hov : Bool) (cand : Option Nat)
    (h : s.drag_indices.isSome) : (update_target s hov cand).drag_indices.isSome := by
  unfold update_target
  cases hdi : s.drag_indices with
  | none => rw [hdi] at h; simp at h
  | some di =>
    cases cand with
    | none => simp
    | some c => by_cases hh : hov <;> simp [hh]

theorem frame_update_isSome (s : DragDropUi) (input : FrameInput)
    (h : s.drag_indices.isSome) : (frame_update s input).drag_indices.isSome := by
  unfold frame_update
  apply update_target_isSome
  cases hd : input.dragged_idx with
  | none => simpa [drag_detect, hd] using repair_isSome s input.list_len h
  | some i => simp [drag_detect, hd, set_source_index_isSome]

/-- C8: (i) when a session is active (or begins this frame from an already
active one) on a nonempty list, a pointer release makes `list_ui` return
`Completed` with the current `(source, target)` pair — including when
`source = target` — and clears the session; (ii) with no session and no drag
gesture, `list_ui` is a complete no-op returning `NoDrag` even if a release
happens, so after a completed drag the state reports `NoDrag` until a new
gesture; (iii) with no session, a drag gesture on item `i` starts a fresh
session with `source = i`, reported as `CurrentDrag (i, t)` while no release
happens. Together these give the lifecycle: begin, target updates, one release
producing exactly one `Completed`, then `NoDrag` until a subsequent begin. -/
theorem C8_release_lifecycle (s : DragDropUi) (input : FrameInput) :
    (input.list_len ≠ 0 → input.any_released = true → s.drag_indices.isSome →
      ∃ di, (frame_update s input).drag_indices = some di ∧
        list_ui s input = ({ frame_update s input with drag_indices := none },
          DragDropResponse.Completed di)) ∧
    (s.drag_indices = none → input.dragged_idx = none →
      list_ui s input = (s, DragDropResponse.NoDrag)) ∧
    (input.list_len ≠ 0 → input.any_released = false → s.drag_indices = none →
      ∀ i, input.dragged_idx = some i →
        ∃ t, list_ui s input = (frame_update s input, DragDropResponse.CurrentDrag ⟨i, t⟩) ∧
          (frame_update s input).drag_indices = some ⟨i, t⟩) := by
  refine ⟨?_, ?_, ?_⟩
  · intro hlen hrel hsome
    obtain ⟨di, hdi⟩ := Option.isSome_iff_exists.mp (frame_update_isSome s input hsome)
    refine ⟨di, hdi, ?_⟩
    simp [list_ui, hlen, hdi, hrel]
  · intro hnone hdrag
    by_cases hlen : input.list_len = 0
    · simp [list_ui, hlen]
    · have hfu : frame_update s input = s := by
        unfold frame_update
        rw [hdrag]
        simp [drag_detect, repair, update_target, hnone]
      simp [list_ui, hlen, hfu, hnone]
  · intro hlen hrel hnone i hdrag
    have hrep : repair s input.list_len = s := by simp [repair, hnone]
    have hset : drag_detect (repair s input.list_len) input.dragged_idx =
        { s with drag_indices := some ⟨i, i⟩ } := by
      rw [hrep, hdrag]
      simp [drag_detect, set_source_index, hnone]
    have hex : ∃ t, (frame_update s input).drag_indices = some ⟨i, t⟩ := by
      unfold frame_update
      dsimp only
      rw [hset]
      cases hc : determine_hovering_index { s with drag_indices := some ⟨i, i⟩ }
          input.hover_pos input.list_len input.item_rects with
      | none => exact ⟨i, by simp [update_target]⟩
      | some c =>
        by_cases hov : input.list_hovered_over
        · exact ⟨c, by simp [update_target, hov]⟩
        · exact ⟨i, by simp [update_target, hov]⟩
    obtain ⟨t, ht⟩ := hex
    refine ⟨t, ?_, ht⟩
    simp [list_ui, hlen, ht, hrel]

theorem C8_witness :
    (∃ di, (frame_update ⟨some ⟨0, 2⟩, none, true⟩
        { list_len := 3, dragged_idx := none, hover_pos := none, item_rects := [],
          list_hovered_over := false, any_released := true }).drag_indices = some di ∧
      list_ui ⟨some ⟨0, 2⟩, none, true⟩
          { list_len := 3, dragged_idx := none, hover_pos := none, item_rects := [],
            list_hovered_over := false, any_released := true } =
        ({ frame_update ⟨some ⟨0, 2⟩, none, true⟩
            { list_len := 3, dragged_idx := none, hover_pos := none, item_rects := [],
              list_hovered_over := false, any_released := true } with drag_indices := none },
          DragDropResponse.Completed di)) ∧
    (list_ui ⟨none, none, true⟩
        { list_len := 3, dragged_idx := none, hover_pos := none, item_rects := [],
          list_hovered_over := false, any_released := true } =
      (⟨none, none, true⟩, DragDropResponse.NoDrag)) ∧
    (∃ t, list_ui ⟨none, none, true⟩
          { list_len := 3, dragged_idx := some 0, hover_pos := none, item_rects := [],
            list_hovered_over := false, any_released := false } =
        (frame_update ⟨none, none, true⟩
          { list_len := 3, dragged_idx := some 0, hover_pos := none, item_rects := [],
            list_hovered_over := false, any_released := false },
          DragDropResponse.CurrentDrag ⟨0, t⟩) ∧
      (frame_update ⟨none, none, true⟩
          { list_len := 3, dragged_idx := some 0, hover_pos := none, item_rects := [],
            list_hovered_over := false, any_released := false }).drag_indices = some ⟨0, t⟩) :=
  ⟨(C8_release_lifecycle ⟨some ⟨0, 2⟩, none, true⟩
      { list_len := 3, dragged_idx := none, hover_pos := none, item_rects := [],
        list_hovered_over := false, any_released := true }).1 (by decide) rfl rfl,
   (C8_release_lifecycle ⟨none, none, true⟩
      { list_len := 3, dragged_idx := none, hover_pos := none, item_rects := [],
        list_hovered_over := false, any_released := true }).2.1 rfl rfl,
   (C8_release_lifecycle ⟨none, none, true⟩
      { list_len := 3, dragged_idx := some 0, hover_pos := none, item_rects := [],
        list_hovered_over := false, any_released := false }).2.2 (by decide) rfl rfl 0 rfl⟩

/-- C10: `list_ui` over an empty items iterator returns `NoDrag` and leaves the
whole drag state (`drag_indices` and `drag_delta` included) untouched — the
early return precedes the repair, drag-detection, target-update and release
steps. -/
theorem C10_empty_list_noop (s : DragDropUi) (input : FrameInput)
    (h : input.list_len = 0) : list_ui s input = (s, DragDropResponse.NoDrag) := by
  simp [list_ui, h]

theorem C10_witness :
    list_ui ⟨some ⟨1, 2⟩, some 5, true⟩
      { list_len := 0, dragged_idx := some 0, hover_pos := some 3, item_rects := [],
        list_hovered_over := true, any_released := true } =
      (⟨some ⟨1, 2⟩, some 5, true⟩, DragDropResponse.NoDrag) :=
  C10_empty_list_noop ⟨some ⟨1, 2⟩, some 5, true⟩ _ rfl

end EguiDnd
